import Mathlib

set_option linter.dupNamespace false

/-!
Verification of the versioned-transaction module
(`sdk/src/transaction/versioned/mod.rs`): construction (`try_new`),
sanitization (`sanitize`, `sanitize_signatures`), verification
(`verify_with_results`, `verify_and_hash_message`), version tagging and
the legacy round-trip.

External collaborators (the message abstraction, the signer-set
abstraction, and the cryptographic sign/verify/hash primitives) are not
part of the source file; they are modelled from the spec as opaque data
carried in structures, as noted on each definition.
-/

namespace Solana

/-- Public keys are opaque values compared by value equality. -/
abbrev Pubkey := Nat

/-- Modelled from the spec: a signature is an opaque value produced by the
signing collaborator; we represent it as a pair so that the deterministic
fake signer below can record the signing key and message bytes. -/
abbrev Signature := Nat × List Nat

/-- Modelled from the spec: content hashes are opaque values. -/
abbrev Hash := Nat

/-- The variants of `SignerError` used by this module. -/
inductive SignerError where
  | InvalidInput (msg : String)
  | TooManySigners
  | NotEnoughSigners
  | KeypairPubkeyMismatch
  deriving Repr, DecidableEq

/-- The variants of `SanitizeError` used by this module. -/
inductive SanitizeError where
  | IndexOutOfBounds
  | ValueOutOfBounds
  | InvalidValue
  deriving Repr, DecidableEq

/-- The variants of `TransactionError` used by this module. -/
inductive TransactionError where
  | SignatureFailure
  | AccountNotFound
  deriving Repr, DecidableEq

/-- The message header; only `num_required_signatures` (a `u8` in the
source, embedded as `Nat`) is relevant to this module. -/
structure MessageHeader where
  num_required_signatures : Nat
  deriving Repr, DecidableEq

/-- Modelled from the spec: the legacy message shape, exposing an ordered
list of static account keys, a header, a deterministic byte serialization
and an opaque delegated structural sanitize check. -/
structure LegacyMessage where
  header : MessageHeader
  account_keys : List Pubkey
  serialized : List Nat
  sanitize_impl : Bool → Except SanitizeError Unit

/-- Modelled from the spec: the numbered (v0) message shape, exposing the
same surface as the legacy shape. -/
structure V0Message where
  header : MessageHeader
  account_keys : List Pubkey
  serialized : List Nat
  sanitize_impl : Bool → Except SanitizeError Unit

/-- `VersionedMessage`: tagged union over the legacy and v0 shapes. -/
inductive VersionedMessage where
  | Legacy (m : LegacyMessage)
  | V0 (m : V0Message)

namespace VersionedMessage

/-- `VersionedMessage::static_account_keys`. -/
def static_account_keys : VersionedMessage → List Pubkey
  | .Legacy m => m.account_keys
  | .V0 m => m.account_keys

/-- `VersionedMessage::header`. -/
def header : VersionedMessage → MessageHeader
  | .Legacy m => m.header
  | .V0 m => m.header

/-- `VersionedMessage::serialize`. -/
def serialize : VersionedMessage → List Nat
  | .Legacy m => m.serialized
  | .V0 m => m.serialized

/-- `VersionedMessage::sanitize`: delegated, format-specific structural
check (opaque to this module). -/
def sanitize (msg : VersionedMessage) (require_static_program_ids : Bool) :
    Except SanitizeError Unit :=
  match msg with
  | .Legacy m => m.sanitize_impl require_static_program_ids
  | .V0 m => m.sanitize_impl require_static_program_ids

end VersionedMessage

/-- Type that serializes to the string "legacy". -/
inductive Legacy where
  | Legacy
  deriving Repr, DecidableEq

/-- `TransactionVersion`: a legacy marker or a numbered version. -/
inductive TransactionVersion where
  | Legacy (l : Legacy)
  | Number (n : Nat)
  deriving Repr, DecidableEq

/-- `TransactionVersion::LEGACY`. -/
def TransactionVersion.LEGACY : TransactionVersion := .Legacy .Legacy

/-- The legacy (unversioned) `Transaction`: signatures plus a legacy
message. -/
structure Transaction where
  signatures : List Signature
  message : LegacyMessage

/-- `VersionedTransaction`: an ordered list of signatures paired with a
versioned message. -/
structure VersionedTransaction where
  signatures : List Signature
  message : VersionedMessage

/-- Modelled from the spec: the signer-set abstraction, reporting the
public key of each supplied signer and signing a byte buffer once per
supplied signer, in the set's own order. -/
structure Signers where
  try_pubkeys : Except SignerError (List Pubkey)
  try_sign_message : List Nat → Except SignerError (List Signature)

/-- `Iterator::position`: index of the first element satisfying the
predicate. -/
def position (p : α → Bool) : List α → Option Nat
  | [] => none
  | a :: l => if p a then some 0 else (position p l).map (fun i => i + 1)

/-- Modelled from the spec: the opaque verify capability of a signature,
instantiated by the deterministic fake crypto below in witnesses. -/
abbrev VerifyFn := Signature → Pubkey → List Nat → Bool

/-- Modelled from the spec: the opaque message-hashing collaborator
(`VersionedMessage::hash_raw_message`). -/
abbrev HashFn := List Nat → Hash

/-- `From<Transaction> for VersionedTransaction`: wrap the same signatures
and tag the message as legacy. -/
def VersionedTransaction.from_transaction (transaction : Transaction) :
    VersionedTransaction :=
  { signatures := transaction.signatures
    message := VersionedMessage.Legacy transaction.message }

namespace VersionedTransaction

/-- `VersionedTransaction::try_new`: sign a versioned message with a
signer set, reordering the produced signatures to the message's
required-signer prefix.  Each Rust `?` is embedded as an explicit match
that propagates the error. -/
def try_new (message : VersionedMessage) (keypairs : Signers) :
    Except SignerError VersionedTransaction :=
  let static_account_keys := message.static_account_keys
  if static_account_keys.length < message.header.num_required_signatures then
    .error (.InvalidInput "invalid message")
  else
    match keypairs.try_pubkeys with
    | .error e => .error e
    | .ok signer_keys =>
      let expected_signer_keys :=
        static_account_keys.take message.header.num_required_signatures
      match compare signer_keys.length expected_signer_keys.length with
      | .gt => .error .TooManySigners
      | .lt => .error .NotEnoughSigners
      | .eq =>
        let message_data := message.serialize
        match expected_signer_keys.mapM (fun signer_key =>
            match position (fun key => key == signer_key) signer_keys with
            | some i => Except.ok i
            | none => Except.error SignerError.KeypairPubkeyMismatch) with
        | .error e => .error e
        | .ok signature_indexes =>
          match keypairs.try_sign_message message_data with
          | .error e => .error e
          | .ok unordered_signatures =>
            match signature_indexes.mapM (fun index =>
                match unordered_signatures.get? index with
                | some s => Except.ok s
                | none => Except.error
                    (SignerError.InvalidInput "invalid keypairs")) with
            | .error e => .error e
            | .ok signatures => .ok { signatures, message }

/-- `VersionedTransaction::sanitize_signatures`. -/
def sanitize_signatures (self : VersionedTransaction) :
    Except SanitizeError Unit :=
  let num_required_signatures := self.message.header.num_required_signatures
  match compare num_required_signatures self.signatures.length with
  | .gt => .error .IndexOutOfBounds
  | .lt => .error .InvalidValue
  | .eq =>
    -- Signatures are verified before message keys are loaded so all
    -- signers must correspond to static account keys.
    if self.signatures.length > self.message.static_account_keys.length then
      .error .IndexOutOfBounds
    else
      .ok ()

/-- `VersionedTransaction::sanitize`. -/
def sanitize (self : VersionedTransaction)
    (require_static_program_ids : Bool) : Except SanitizeError Unit :=
  match self.message.sanitize require_static_program_ids with
  | .error e => .error e
  | .ok () => self.sanitize_signatures

/-- `VersionedTransaction::version`. -/
def version (self : VersionedTransaction) : TransactionVersion :=
  match self.message with
  | .Legacy _ => TransactionVersion.LEGACY
  | .V0 _ => TransactionVersion.Number 0

/-- `VersionedTransaction::into_legacy_transaction`. -/
def into_legacy_transaction (self : VersionedTransaction) :
    Option Transaction :=
  match self.message with
  | .Legacy message => some { signatures := self.signatures, message }
  | _ => none

/-- `VersionedTransaction::_verify_with_results`: zip signatures with
static account keys and check each pair over the given bytes. -/
def _verify_with_results (verify : VerifyFn) (self : VersionedTransaction)
    (message_bytes : List Nat) : List Bool :=
  (self.signatures.zip self.message.static_account_keys).map
    (fun sp => verify sp.1 sp.2 message_bytes)

/-- `VersionedTransaction::verify_with_results`. -/
def verify_with_results (verify : VerifyFn) (self : VersionedTransaction) :
    List Bool :=
  let message_bytes := self.message.serialize
  self._verify_with_results verify message_bytes

/-- `VersionedTransaction::verify_and_hash_message`. -/
def verify_and_hash_message (verify : VerifyFn) (hash_raw_message : HashFn)
    (self : VersionedTransaction) : Except TransactionError Hash :=
  let message_bytes := self.message.serialize
  if !((self._verify_with_results verify message_bytes).all
      (fun verify_result => verify_result)) then
    .error TransactionError.SignatureFailure
  else
    .ok (hash_raw_message message_bytes)

end VersionedTransaction

/-- Modelled from the spec: deterministic fake signing capability — the
signature records the signing key and the signed bytes. -/
def fakeSign (k : Pubkey) (bytes : List Nat) : Signature := (k, bytes)

/-- Modelled from the spec: the verify capability matching `fakeSign`. -/
def fakeVerify : VerifyFn := fun s p bytes => s == fakeSign p bytes

/-- Modelled from the spec: a signer set backed by a list of keypairs
(identified with their public keys); `try_pubkeys` reports the keys in
order and `try_sign_message` signs once per supplied keypair, in order. -/
def keypairSigners (ks : List Pubkey) : Signers :=
  { try_pubkeys := .ok ks
    try_sign_message := fun bytes => .ok (ks.map (fun k => fakeSign k bytes)) }

/-! ### Helper lemmas about `Except`, `List.mapM` and `position` -/

theorem except_bind_ok_iff {ε α β : Type} {x : Except ε α}
    {f : α → Except ε β} {b : β} :
    x >>= f = Except.ok b ↔ ∃ a, x = Except.ok a ∧ f a = Except.ok b := by
  cases x with
  | error e => simp [Bind.bind, Except.bind]
  | ok a => simp [Bind.bind, Except.bind]

theorem mapM_eq_ok_iff_forall2 {ε α β : Type} {h : α → Except ε β} :
    ∀ {l : List α} {ys : List β},
      l.mapM h = Except.ok ys ↔
        List.Forall₂ (fun a b => h a = Except.ok b) l ys := by
  intro l
  induction l with
  | nil =>
    intro ys
    constructor
    · intro hok
      simp only [List.mapM_nil] at hok
      cases hok
      exact List.Forall₂.nil
    · intro hf
      cases hf
      rfl
  | cons a l ih =>
    intro ys
    constructor
    · intro hok
      simp only [List.mapM_cons] at hok
      rw [except_bind_ok_iff] at hok
      obtain ⟨y, hy, hrest⟩ := hok
      rw [except_bind_ok_iff] at hrest
      obtain ⟨ys', hys', hpure⟩ := hrest
      have : ys = y :: ys' := by
        cases hpure
        rfl
      subst this
      exact List.Forall₂.cons hy (ih.mp hys')
    · intro hf
      cases hf with
      | cons hab htail =>
        simp only [List.mapM_cons]
        rw [except_bind_ok_iff]
        refine ⟨_, hab, ?_⟩
        rw [except_bind_ok_iff]
        exact ⟨_, ih.mpr htail, rfl⟩

theorem mapM_eq_error_of_mem {ε α β : Type} {h : α → Except ε β} {c : ε}
    (hc : ∀ a, h a = Except.error c ∨ ∃ b, h a = Except.ok b) :
    ∀ {l : List α}, (∃ a ∈ l, h a = Except.error c) →
      l.mapM h = Except.error c := by
  intro l
  induction l with
  | nil => rintro ⟨a, ha, _⟩; cases ha
  | cons a l ih =>
    rintro ⟨x, hx, hxe⟩
    simp only [List.mapM_cons]
    rcases hc a with hae | ⟨b, hab⟩
    · rw [hae]; rfl
    · rw [hab]
      have hxl : x ∈ l := by
        rcases List.mem_cons.mp hx with rfl | hmem
        · rw [hab] at hxe; cases hxe
        · exact hmem
      have : l.mapM h = Except.error c := ih ⟨x, hxl, hxe⟩
      show (l.mapM h >>= fun ys => pure (b :: ys)) = Except.error c
      rw [this]
      rfl

theorem position_eq_none_iff {α : Type} {p : α → Bool} :
    ∀ {l : List α}, position p l = none ↔ ∀ a ∈ l, p a = false := by
  intro l
  induction l with
  | nil => simp [position]
  | cons a l ih =>
    by_cases hpa : p a = true
    · simp [position, hpa]
    · simp only [Bool.not_eq_true] at hpa
      simp [position, hpa, ih]

theorem position_spec {α : Type} {p : α → Bool} :
    ∀ {l : List α} {i : Nat}, position p l = some i →
      ∃ hi : i < l.length, p (l.get ⟨i, hi⟩) = true ∧
        ∀ j (hj : j < l.length), j < i → p (l.get ⟨j, hj⟩) = false := by
  intro l
  induction l with
  | nil => intro i hpos; cases hpos
  | cons a l ih =>
    intro i hpos
    by_cases hpa : p a = true
    · simp only [position, hpa, if_true] at hpos
      cases hpos
      exact ⟨Nat.succ_pos _, hpa, fun j hj hji => absurd hji (Nat.not_lt_zero j)⟩
    · simp only [Bool.not_eq_true] at hpa
      simp only [position, hpa, Bool.false_eq_true, if_false,
        Option.map_eq_some'] at hpos
      obtain ⟨i', hi', rfl⟩ := hpos
      obtain ⟨hlt, hget, hmin⟩ := ih hi'
      refine ⟨Nat.succ_lt_succ hlt, hget, ?_⟩
      intro j hj hji
      cases j with
      | zero => simpa using hpa
      | succ j' =>
        exact hmin j' (Nat.lt_of_succ_lt_succ hj) (Nat.lt_of_succ_lt_succ hji)

theorem position_isSome_of_mem {α : Type} {p : α → Bool} {l : List α} {a : α}
    (ha : a ∈ l) (hp : p a = true) : ∃ i, position p l = some i := by
  cases hpos : position p l with
  | none =>
    have := position_eq_none_iff.mp hpos a ha
    rw [hp] at this
    cases this
  | some i => exact ⟨i, rfl⟩

theorem forall2_exists_comp {α β γ : Type} {R : α → β → Prop}
    {S : β → γ → Prop} :
    ∀ {l1 : List α} {l2 : List β} {l3 : List γ},
      List.Forall₂ R l1 l2 → List.Forall₂ S l2 l3 →
      List.Forall₂ (fun a c => ∃ b, R a b ∧ S b c) l1 l3 := by
  intro l1 l2 l3 h1
  induction h1 generalizing l3 with
  | nil =>
    intro h2
    cases h2
    exact .nil
  | cons hab h ih =>
    intro h2
    cases h2 with
    | cons hbc h2tail => exact .cons ⟨_, hab, hbc⟩ (ih h2tail)

theorem forall2_mem_right {α β : Type} {R : α → β → Prop} :
    ∀ {l1 : List α} {l2 : List β}, List.Forall₂ R l1 l2 →
      ∀ b ∈ l2, ∃ a ∈ l1, R a b := by
  intro l1 l2 h
  induction h with
  | nil => intro b hb; cases hb
  | cons hab h ih =>
    intro b hb
    rcases List.mem_cons.mp hb with rfl | hmem
    · exact ⟨_, List.mem_cons_self _ _, hab⟩
    · obtain ⟨a, ha, hr⟩ := ih b hmem
      exact ⟨a, List.mem_cons_of_mem _ ha, hr⟩

/-- The index-resolution pass of `try_new` succeeds when every expected key
occurs among the supplied keys, returning for each expected key the index
of its first (leftmost) occurrence. -/
theorem resolve_mapM_ok {pks : List Pubkey} :
    ∀ {expected : List Pubkey}, (∀ k ∈ expected, k ∈ pks) →
      ∃ idxs, (expected.mapM (fun signer_key =>
          match position (fun key => key == signer_key) pks with
          | some i => Except.ok i
          | none => Except.error SignerError.KeypairPubkeyMismatch)) =
            Except.ok idxs ∧
        List.Forall₂ (fun k i =>
          position (fun key => key == k) pks = some i) expected idxs := by
  intro expected
  induction expected with
  | nil => intro _; exact ⟨[], rfl, .nil⟩
  | cons k ks ih =>
    intro hall
    obtain ⟨i, hi⟩ :=
      position_isSome_of_mem (p := fun key => key == k)
        (hall k (List.mem_cons_self _ _)) (beq_self_eq_true k)
    obtain ⟨idxs, hm, hf⟩ := ih (fun x hx => hall x (List.mem_cons_of_mem _ hx))
    refine ⟨i :: idxs, ?_, .cons hi hf⟩
    simp only [List.mapM_cons, hi, hm]
    rfl

/-- The signature-selection pass of `try_new` succeeds when every resolved
index is in range, returning the signature at each index. -/
theorem select_mapM_ok {sigs : List Signature} :
    ∀ {idxs : List Nat}, (∀ i ∈ idxs, i < sigs.length) →
      ∃ outs, (idxs.mapM (fun index =>
          match sigs.get? index with
          | some s => Except.ok s
          | none => Except.error
              (SignerError.InvalidInput "invalid keypairs"))) =
            Except.ok outs ∧
        List.Forall₂ (fun i s => sigs.get? i = some s) idxs outs := by
  intro idxs
  induction idxs with
  | nil => intro _; exact ⟨[], rfl, .nil⟩
  | cons i idxs ih =>
    intro hall
    have hi : i < sigs.length := hall i (List.mem_cons_self _ _)
    have hget : sigs.get? i = some (sigs.get ⟨i, hi⟩) := List.get?_eq_get hi
    obtain ⟨outs, hm, hf⟩ := ih (fun x hx => hall x (List.mem_cons_of_mem _ hx))
    refine ⟨sigs.get ⟨i, hi⟩ :: outs, ?_, .cons hget hf⟩
    simp only [List.mapM_cons, hget, hm]
    rfl

/-- Success shape of `try_new` for a general signer set: when the header
guard passes, the pubkeys are obtained, the counts agree, every expected
key is supplied, and signing yields one signature per supplied key, the
result is `ok` and each output signature is the one produced at the
leftmost supplied index of the corresponding expected key. -/
theorem try_new_ok_shape (m : VersionedMessage) (s : Signers)
    (pks : List Pubkey) (sigs : List Signature)
    (hg : ¬ m.static_account_keys.length < m.header.num_required_signatures)
    (hp : s.try_pubkeys = .ok pks)
    (hlen : pks.length =
      (m.static_account_keys.take m.header.num_required_signatures).length)
    (hall : ∀ k ∈ m.static_account_keys.take m.header.num_required_signatures,
      k ∈ pks)
    (hs : s.try_sign_message m.serialize = .ok sigs)
    (hsl : sigs.length = pks.length) :
    ∃ tx, VersionedTransaction.try_new m s = .ok tx ∧ tx.message = m ∧
      List.Forall₂ (fun k sg => ∃ i,
          position (fun key => key == k) pks = some i ∧
          sigs.get? i = some sg)
        (m.static_account_keys.take m.header.num_required_signatures)
        tx.signatures := by
  obtain ⟨idxs, hm, hf⟩ := resolve_mapM_ok hall
  have hbound : ∀ i ∈ idxs, i < sigs.length := by
    intro i hi
    obtain ⟨k, _, hpos⟩ := forall2_mem_right hf i hi
    obtain ⟨hlt, _, _⟩ := position_spec hpos
    rw [hsl]
    exact hlt
  obtain ⟨outs, hsel, hfsel⟩ := select_mapM_ok hbound
  refine ⟨⟨outs, m⟩, ?_, rfl, ?_⟩
  · simp only [VersionedTransaction.try_new, if_neg hg, hp]
    have hc : compare pks.length
        (m.static_account_keys.take m.header.num_required_signatures).length =
        Ordering.eq := Nat.compare_eq_eq.mpr hlen
    simp only [hc, hm, hs, hsel]
  · exact forall2_exists_comp hf hfsel

/-- `try_new` fails with the "invalid message" input error whenever the
header claims more required signers than there are static account keys,
whatever the signer set. -/
theorem try_new_guard (m : VersionedMessage) (s : Signers)
    (hg : m.static_account_keys.length < m.header.num_required_signatures) :
    VersionedTransaction.try_new m s =
      .error (.InvalidInput "invalid message") := by
  simp only [VersionedTransaction.try_new, if_pos hg]

/-- `try_new` fails with `TooManySigners` when more pubkeys are supplied
than the message requires. -/
theorem try_new_too_many (m : VersionedMessage) (s : Signers)
    (pks : List Pubkey)
    (hg : ¬ m.static_account_keys.length < m.header.num_required_signatures)
    (hp : s.try_pubkeys = .ok pks)
    (hgt : (m.static_account_keys.take
        m.header.num_required_signatures).length < pks.length) :
    VersionedTransaction.try_new m s = .error .TooManySigners := by
  simp only [VersionedTransaction.try_new, if_neg hg, hp]
  have hc : compare pks.length
      (m.static_account_keys.take m.header.num_required_signatures).length =
      Ordering.gt := Nat.compare_eq_gt.mpr hgt
  simp only [hc]

/-- `try_new` fails with `NotEnoughSigners` when fewer pubkeys are supplied
than the message requires. -/
theorem try_new_not_enough (m : VersionedMessage) (s : Signers)
    (pks : List Pubkey)
    (hg : ¬ m.static_account_keys.length < m.header.num_required_signatures)
    (hp : s.try_pubkeys = .ok pks)
    (hlt : pks.length < (m.static_account_keys.take
        m.header.num_required_signatures).length) :
    VersionedTransaction.try_new m s = .error .NotEnoughSigners := by
  simp only [VersionedTransaction.try_new, if_neg hg, hp]
  have hc : compare pks.length
      (m.static_account_keys.take m.header.num_required_signatures).length =
      Ordering.lt := Nat.compare_eq_lt.mpr hlt
  simp only [hc]

/-- `try_new` fails with `KeypairPubkeyMismatch` when the counts agree but
some required key has no value-equal match among the supplied pubkeys. -/
theorem try_new_mismatch (m : VersionedMessage) (s : Signers)
    (pks : List Pubkey)
    (hg : ¬ m.static_account_keys.length < m.header.num_required_signatures)
    (hp : s.try_pubkeys = .ok pks)
    (hlen : pks.length = (m.static_account_keys.take
        m.header.num_required_signatures).length)
    (hmiss : ∃ k ∈ m.static_account_keys.take
        m.header.num_required_signatures, ¬ k ∈ pks) :
    VersionedTransaction.try_new m s = .error .KeypairPubkeyMismatch := by
  simp only [VersionedTransaction.try_new, if_neg hg, hp]
  have hc : compare pks.length
      (m.static_account_keys.take m.header.num_required_signatures).length =
      Ordering.eq := Nat.compare_eq_eq.mpr hlen
  simp only [hc]
  obtain ⟨k, hk, hknot⟩ := hmiss
  have hnone : position (fun key => key == k) pks = none := by
    rw [position_eq_none_iff]
    intro x hx
    exact beq_eq_false_iff_ne.mpr (fun hxk => hknot (hxk ▸ hx))
  have herr : (m.static_account_keys.take
      m.header.num_required_signatures).mapM (fun signer_key =>
        match position (fun key => key == signer_key) pks with
        | some i => Except.ok i
        | none => Except.error SignerError.KeypairPubkeyMismatch) =
      Except.error SignerError.KeypairPubkeyMismatch := by
    apply mapM_eq_error_of_mem
    · intro a
      cases hpos : position (fun key => key == a) pks with
      | none => left; simp only [hpos]
      | some i => right; exact ⟨i, by simp only [hpos]⟩
    · exact ⟨k, hk, by simp only [hnone]⟩
  simp only [herr]

/-- Inversion of a successful `try_new`: the returned transaction carries
the input message unchanged, its signature count equals the header's
requirement, and the requirement is at most the static-key count. -/
theorem try_new_ok_inv (m : VersionedMessage) (s : Signers)
    (tx : VersionedTransaction)
    (h : VersionedTransaction.try_new m s = .ok tx) :
    tx.message = m ∧
    tx.signatures.length = m.header.num_required_signatures ∧
    m.header.num_required_signatures ≤ m.static_account_keys.length := by
  simp only [VersionedTransaction.try_new] at h
  by_cases hg :
      m.static_account_keys.length < m.header.num_required_signatures
  · rw [if_pos hg] at h
    cases h
  · rw [if_neg hg] at h
    cases hpk : s.try_pubkeys with
    | error e => simp only [hpk] at h; cases h
    | ok pks =>
      simp only [hpk] at h
      cases hcmp : compare pks.length
          (m.static_account_keys.take
            m.header.num_required_signatures).length with
      | lt => simp only [hcmp] at h; cases h
      | gt => simp only [hcmp] at h; cases h
      | eq =>
        simp only [hcmp] at h
        cases hres : (m.static_account_keys.take
            m.header.num_required_signatures).mapM (fun signer_key =>
              match position (fun key => key == signer_key) pks with
              | some i => Except.ok i
              | none => Except.error SignerError.KeypairPubkeyMismatch) with
        | error e => simp only [hres] at h; cases h
        | ok signature_indexes =>
          simp only [hres] at h
          cases hsig : s.try_sign_message m.serialize with
          | error e => simp only [hsig] at h; cases h
          | ok unordered_signatures =>
            simp only [hsig] at h
            cases hsel : signature_indexes.mapM (fun index =>
                match unordered_signatures.get? index with
                | some sg => Except.ok sg
                | none => Except.error
                    (SignerError.InvalidInput "invalid keypairs")) with
            | error e => simp only [hsel] at h; cases h
            | ok signatures =>
              simp only [hsel] at h
              cases h
              have h1 : signatures.length = signature_indexes.length :=
                (mapM_eq_ok_iff_forall2.mp hsel).length_eq.symm
              have h2 : signature_indexes.length =
                  (m.static_account_keys.take
                    m.header.num_required_signatures).length :=
                (mapM_eq_ok_iff_forall2.mp hres).length_eq.symm
              have hle : m.header.num_required_signatures ≤
                  m.static_account_keys.length := Nat.le_of_not_lt hg
              refine ⟨rfl, ?_, hle⟩
              rw [h1, h2, List.length_take]
              exact Nat.min_eq_left hle

/-- Characterization of `sanitize_signatures`: the two count checks, their
error kinds, and the exact success condition. -/
theorem sanitize_signatures_char (tx : VersionedTransaction) :
    (tx.signatures.length < tx.message.header.num_required_signatures →
      tx.sanitize_signatures = .error .IndexOutOfBounds) ∧
    (tx.message.header.num_required_signatures < tx.signatures.length →
      tx.sanitize_signatures = .error .InvalidValue) ∧
    (tx.signatures.length = tx.message.header.num_required_signatures →
      tx.message.static_account_keys.length < tx.signatures.length →
      tx.sanitize_signatures = .error .IndexOutOfBounds) ∧
    (tx.sanitize_signatures = .ok () ↔
      (tx.signatures.length = tx.message.header.num_required_signatures ∧
       tx.signatures.length ≤ tx.message.static_account_keys.length)) := by
  have hA : tx.signatures.length < tx.message.header.num_required_signatures →
      tx.sanitize_signatures = .error .IndexOutOfBounds := by
    intro h
    have hc : compare tx.message.header.num_required_signatures
        tx.signatures.length = Ordering.gt := Nat.compare_eq_gt.mpr h
    simp only [VersionedTransaction.sanitize_signatures, hc]
  have hB : tx.message.header.num_required_signatures <
      tx.signatures.length →
      tx.sanitize_signatures = .error .InvalidValue := by
    intro h
    have hc : compare tx.message.header.num_required_signatures
        tx.signatures.length = Ordering.lt := Nat.compare_eq_lt.mpr h
    simp only [VersionedTransaction.sanitize_signatures, hc]
  have hC : tx.signatures.length =
      tx.message.header.num_required_signatures →
      tx.message.static_account_keys.length < tx.signatures.length →
      tx.sanitize_signatures = .error .IndexOutOfBounds := by
    intro heq hgt
    have hc : compare tx.message.header.num_required_signatures
        tx.signatures.length = Ordering.eq := Nat.compare_eq_eq.mpr heq.symm
    simp only [VersionedTransaction.sanitize_signatures, hc, if_pos hgt]
  refine ⟨hA, hB, hC, ?_, ?_⟩
  · intro hok
    rcases Nat.lt_trichotomy tx.signatures.length
        tx.message.header.num_required_signatures with hlt | heq | hgt
    · rw [hA hlt] at hok
      cases hok
    · refine ⟨heq, ?_⟩
      by_contra hnle
      have hgt2 : tx.message.static_account_keys.length <
          tx.signatures.length := Nat.lt_of_not_le hnle
      rw [hC heq hgt2] at hok
      cases hok
    · rw [hB hgt] at hok
      cases hok
  · rintro ⟨heq, hle⟩
    have hc : compare tx.message.header.num_required_signatures
        tx.signatures.length = Ordering.eq := Nat.compare_eq_eq.mpr heq.symm
    simp only [VersionedTransaction.sanitize_signatures, hc,
      if_neg (Nat.not_lt.mpr hle)]

/-- The per-index reading of `_verify_with_results`: the boolean vector is
all-true exactly when every zipped signature/key pair verifies. -/
theorem vwr_all_iff (verify : VerifyFn) (tx : VersionedTransaction)
    (bytes : List Nat) :
    ((tx._verify_with_results verify bytes).all (fun r => r) = true) ↔
      ∀ i (h1 : i < tx.signatures.length)
        (h2 : i < tx.message.static_account_keys.length),
        verify (tx.signatures.get ⟨i, h1⟩)
          (tx.message.static_account_keys.get ⟨i, h2⟩) bytes = true := by
  rw [List.all_eq_true]
  constructor
  · intro h i h1 h2
    have hz : i < (tx.signatures.zip tx.message.static_account_keys).length := by
      rw [List.length_zip]
      exact lt_min h1 h2
    have hmem : verify (tx.signatures.get ⟨i, h1⟩)
        (tx.message.static_account_keys.get ⟨i, h2⟩) bytes ∈
          tx._verify_with_results verify bytes := by
      have hm : i < (tx._verify_with_results verify bytes).length := by
        simp only [VersionedTransaction._verify_with_results, List.length_map]
        exact hz
      have hget : (tx._verify_with_results verify bytes).get ⟨i, hm⟩ =
          verify (tx.signatures.get ⟨i, h1⟩)
            (tx.message.static_account_keys.get ⟨i, h2⟩) bytes := by
        simp only [VersionedTransaction._verify_with_results,
          List.get_eq_getElem, List.getElem_map, List.getElem_zip]
      rw [← hget]
      exact List.get_mem _ _ _
    exact h _ hmem
  · intro h x hx
    simp only [VersionedTransaction._verify_with_results] at hx
    obtain ⟨⟨sg, pk⟩, hmem, rfl⟩ := List.mem_map.mp hx
    obtain ⟨n, hget⟩ := List.mem_iff_get.mp hmem
    have hmin : (n : Nat) <
        min tx.signatures.length tx.message.static_account_keys.length :=
      Nat.lt_of_lt_of_le n.isLt (Nat.le_of_eq (List.length_zip _ _))
    have h1 : (n : Nat) < tx.signatures.length :=
      Nat.lt_of_lt_of_le hmin (Nat.min_le_left _ _)
    have h2 : (n : Nat) < tx.message.static_account_keys.length :=
      Nat.lt_of_lt_of_le hmin (Nat.min_le_right _ _)
    have hz : (tx.signatures.zip tx.message.static_account_keys).get n =
        (tx.signatures.get ⟨n, h1⟩,
          tx.message.static_account_keys.get ⟨n, h2⟩) := by
      simp only [List.get_eq_getElem, List.getElem_zip]
    rw [hz] at hget
    have hsg : sg = tx.signatures.get ⟨n, h1⟩ := by
      have := congrArg Prod.fst hget
      exact this.symm
    have hpk : pk = tx.message.static_account_keys.get ⟨n, h2⟩ := by
      have := congrArg Prod.snd hget
      exact this.symm
    rw [hsg, hpk]
    exact h n h1 h2

/-- A `Forall₂` whose relation fixes the right element as a function of
the left one pins the right list to a `map`. -/
theorem forall2_eq_map {α β : Type} {f : α → β} :
    ∀ {l : List α} {l2 : List β},
      List.Forall₂ (fun a b => b = f a) l l2 → l2 = l.map f := by
  intro l l2 h
  induction h with
  | nil => rfl
  | cons hab h ih => simp only [List.map_cons, ih, hab]

/-- With the deterministic keypair-list signer model, a successful
`try_new` returns exactly the expected keys' signatures, in the message's
required order. -/
theorem try_new_keypair_ok (m : VersionedMessage) (ks : List Pubkey)
    (hg : ¬ m.static_account_keys.length < m.header.num_required_signatures)
    (hlen : ks.length = (m.static_account_keys.take
        m.header.num_required_signatures).length)
    (hall : ∀ k ∈ m.static_account_keys.take
        m.header.num_required_signatures, k ∈ ks) :
    VersionedTransaction.try_new m (keypairSigners ks) =
      .ok ⟨(m.static_account_keys.take
          m.header.num_required_signatures).map
            (fun k => fakeSign k m.serialize), m⟩ := by
  obtain ⟨tx, htx, hmsg, hf⟩ := try_new_ok_shape m (keypairSigners ks) ks
    (ks.map (fun k => fakeSign k m.serialize)) hg rfl hlen hall rfl
    (by rw [List.length_map])
  have hf2 : List.Forall₂ (fun k sg => sg = fakeSign k m.serialize)
      (m.static_account_keys.take m.header.num_required_signatures)
      tx.signatures := by
    refine hf.imp ?_
    rintro k sg ⟨i, hpos, hget⟩
    obtain ⟨hi, hp, _⟩ := position_spec hpos
    have hki : ks.get ⟨i, hi⟩ = k := beq_iff_eq.mp hp
    rw [List.get?_map, List.get?_eq_get hi] at hget
    simp only [Option.map_some', Option.some.injEq] at hget
    rw [← hget, hki]
  have hsig : tx.signatures =
      (m.static_account_keys.take m.header.num_required_signatures).map
        (fun k => fakeSign k m.serialize) := forall2_eq_map hf2
  rw [htx]
  cases tx with
  | mk sigs msg =>
    simp only at hmsg hsig
    rw [hmsg, hsig]

/-- `try_new` with the keypair-list signer model is invariant under
permutations of the supplied keypairs. -/
theorem try_new_keypair_perm (m : VersionedMessage) (ks1 ks2 : List Pubkey)
    (hperm : ks1.Perm ks2) :
    VersionedTransaction.try_new m (keypairSigners ks1) =
      VersionedTransaction.try_new m (keypairSigners ks2) := by
  by_cases hg : m.static_account_keys.length <
      m.header.num_required_signatures
  · rw [try_new_guard _ _ hg, try_new_guard _ _ hg]
  · have hlen12 : ks1.length = ks2.length := hperm.length_eq
    rcases Nat.lt_trichotomy ks1.length (m.static_account_keys.take
        m.header.num_required_signatures).length with hlt | heq | hgt
    · rw [try_new_not_enough _ _ ks1 hg rfl hlt,
        try_new_not_enough _ _ ks2 hg rfl (by rw [← hlen12]; exact hlt)]
    · by_cases hall : ∀ k ∈ m.static_account_keys.take
          m.header.num_required_signatures, k ∈ ks1
      · rw [try_new_keypair_ok m ks1 hg heq hall,
          try_new_keypair_ok m ks2 hg (by rw [← hlen12]; exact heq)
            (fun k hk => hperm.mem_iff.mp (hall k hk))]
      · push_neg at hall
        obtain ⟨k, hk, hknot⟩ := hall
        rw [try_new_mismatch _ _ ks1 hg rfl heq ⟨k, hk, hknot⟩,
          try_new_mismatch _ _ ks2 hg rfl (by rw [← hlen12]; exact heq)
            ⟨k, hk, fun h2 => hknot (hperm.mem_iff.mpr h2)⟩]
    · rw [try_new_too_many _ _ ks1 hg rfl hgt,
        try_new_too_many _ _ ks2 hg rfl (by rw [← hlen12]; exact hgt)]

/-! ### Concrete fixtures used by witnesses -/

/-- An always-passing delegated message sanitize check. -/
def sanOk : Bool → Except SanitizeError Unit := fun _ => Except.ok ()

/-- A legacy message with two static keys, one required signer. -/
def lmOk : LegacyMessage := ⟨⟨1⟩, [1, 2], [9, 9], sanOk⟩

/-- A message requiring two signers, keys `[1, 2, 3]`. -/
def msg2 : VersionedMessage := .Legacy ⟨⟨2⟩, [1, 2, 3], [9, 9], sanOk⟩

/-- A message whose header over-claims signers (no keys, one required). -/
def msgShort : VersionedMessage := .Legacy ⟨⟨1⟩, [], [7], sanOk⟩

/-- A message with duplicate required keys, to exercise leftmost
resolution. -/
def msgDup : VersionedMessage := .Legacy ⟨⟨2⟩, [5, 5], [4], sanOk⟩

/-- The transaction produced by signing `msg2` with keypairs `[2, 1]`. -/
def txC9 : VersionedTransaction := ⟨[(1, [9, 9]), (2, [9, 9])], msg2⟩

/-- A correctly signed one-signer transaction. -/
def txC2 : VersionedTransaction := ⟨[(1, [9, 9])], .Legacy lmOk⟩

/-- A transaction with more signatures than static account keys. -/
def txC5 : VersionedTransaction := ⟨[(0, [])], .Legacy ⟨⟨1⟩, [], [7], sanOk⟩⟩

/-- A legacy-shaped transaction. -/
def txL : VersionedTransaction := ⟨[(3, [1])], .Legacy lmOk⟩

/-- A v0-shaped transaction. -/
def txV0 : VersionedTransaction := ⟨[], .V0 ⟨⟨0⟩, [], [], sanOk⟩⟩

/-- A transaction whose message sanitize check fails. -/
def txBad : VersionedTransaction :=
  ⟨[], .Legacy ⟨⟨0⟩, [], [], fun _ => Except.error .ValueOutOfBounds⟩⟩

/-- A signer set whose pubkey report itself fails. -/
def sFail : Signers :=
  ⟨Except.error .TooManySigners, fun _ => Except.error .TooManySigners⟩

/-- A length-based stand-in for the opaque message hash. -/
def lenHash : HashFn := fun bytes => bytes.length

/-! ### Claims -/

/-- C6: for every message whose count of static account keys is strictly
smaller than its header's `num_required_signatures`, `try_new` fails with
the "invalid message" input error — for every signer set, so the check
happens before the signer set is consulted. -/
theorem claim_C6 (m : VersionedMessage) (s : Signers)
    (hg : m.static_account_keys.length < m.header.num_required_signatures) :
    VersionedTransaction.try_new m s =
      .error (.InvalidInput "invalid message") :=
  try_new_guard m s hg

/-- Witness for C6 at a concrete over-claiming message, also with a
signer set whose own pubkey query fails (showing the signer set is not
consulted). -/
theorem claim_C6_witness :
    VersionedTransaction.try_new msgShort (keypairSigners []) =
      .error (.InvalidInput "invalid message") ∧
    VersionedTransaction.try_new msgShort sFail =
      .error (.InvalidInput "invalid message") :=
  ⟨claim_C6 msgShort (keypairSigners []) (by decide),
   claim_C6 msgShort sFail (by decide)⟩

/-- C7: converting a legacy transaction to a versioned transaction
preserves the signature list, wraps the same message tagged as legacy,
and `into_legacy_transaction` on the result returns exactly the original
transaction. -/
theorem claim_C7 (t : Transaction) :
    (VersionedTransaction.from_transaction t).signatures = t.signatures ∧
    (VersionedTransaction.from_transaction t).message =
      VersionedMessage.Legacy t.message ∧
    (VersionedTransaction.from_transaction t).into_legacy_transaction =
      some t :=
  ⟨rfl, rfl, rfl⟩

/-- C8: `version` returns the legacy marker iff the embedded message is
legacy and the numbered tag 0 otherwise; `into_legacy_transaction`
returns the same signatures and message as `some` legacy transaction iff
the message is legacy, and `none` otherwise. -/
theorem claim_C8 (tx : VersionedTransaction) :
    ((∃ m, tx.message = VersionedMessage.Legacy m) →
      tx.version = TransactionVersion.LEGACY ∧
      ∀ m, tx.message = VersionedMessage.Legacy m →
        tx.into_legacy_transaction = some ⟨tx.signatures, m⟩) ∧
    ((∀ m, tx.message ≠ VersionedMessage.Legacy m) →
      tx.version = TransactionVersion.Number 0 ∧
      tx.into_legacy_transaction = none) ∧
    (tx.version = TransactionVersion.LEGACY ↔
      ∃ m, tx.message = VersionedMessage.Legacy m) ∧
    (tx.into_legacy_transaction = none ↔
      ∀ m, tx.message ≠ VersionedMessage.Legacy m) := by
  obtain ⟨sigs, msg⟩ := tx
  cases msg with
  | Legacy lm =>
    refine ⟨?_, ?_, ?_, ?_⟩
    · intro _
      refine ⟨rfl, ?_⟩
      intro m hm
      cases hm
      rfl
    · intro hnot
      exact absurd rfl (hnot lm)
    · exact ⟨fun _ => ⟨lm, rfl⟩, fun _ => rfl⟩
    · constructor
      · intro habs
        cases habs
      · intro hnot
        exact absurd rfl (hnot lm)
  | V0 v0 =>
    refine ⟨?_, ?_, ?_, ?_⟩
    · rintro ⟨m, hm⟩
      cases hm
    · intro _
      exact ⟨rfl, rfl⟩
    · constructor
      · intro hv
        simp only [VersionedTransaction.version,
          TransactionVersion.LEGACY] at hv
        exact TransactionVersion.noConfusion hv
      · rintro ⟨m, hm⟩
        cases hm
    · refine ⟨?_, fun _ => rfl⟩
      intro _ m hm
      cases hm

/-- Witness for C8 on one legacy-shaped and one v0-shaped transaction. -/
theorem claim_C8_witness :
    txL.version = TransactionVersion.LEGACY ∧
    txL.into_legacy_transaction = some ⟨txL.signatures, lmOk⟩ ∧
    txV0.version = TransactionVersion.Number 0 ∧
    txV0.into_legacy_transaction = none := by
  have h1 := (claim_C8 txL).1 ⟨lmOk, rfl⟩
  have h2 := (claim_C8 txV0).2.1 (fun m hm => by cases hm)
  exact ⟨h1.1, h1.2 lmOk rfl, h2.1, h2.2⟩

/-- C9: whenever `try_new` succeeds, the returned transaction contains
the input message unchanged, its signature count equals the header's
`num_required_signatures` and is at most the static-key count, so the
result already satisfies both invariants checked by
`sanitize_signatures`. -/
theorem claim_C9 (m : VersionedMessage) (s : Signers)
    (tx : VersionedTransaction)
    (h : VersionedTransaction.try_new m s = .ok tx) :
    tx.message = m ∧
    tx.signatures.length = m.header.num_required_signatures ∧
    tx.signatures.length ≤ m.static_account_keys.length ∧
    tx.sanitize_signatures = .ok () := by
  obtain ⟨h1, h2, h3⟩ := try_new_ok_inv m s tx h
  have hle : tx.signatures.length ≤ m.static_account_keys.length := by
    rw [h2]
    exact h3
  refine ⟨h1, h2, hle, ?_⟩
  refine (sanitize_signatures_char tx).2.2.2.mpr ⟨?_, ?_⟩
  · rw [h1]
    exact h2
  · rw [h1]
    exact hle

/-- Witness for C9 at a concrete successful signing. -/
theorem claim_C9_witness :
    txC9.message = msg2 ∧
    txC9.signatures.length = msg2.header.num_required_signatures ∧
    txC9.signatures.length ≤ msg2.static_account_keys.length ∧
    txC9.sanitize_signatures = .ok () :=
  claim_C9 msg2 (keypairSigners [2, 1]) txC9 (by rfl)

/-- C10: when the signer set's pubkey query succeeds and its signing call
returns exactly one signature per supplied signer, the defensive
"invalid keypairs" error of the signature-selection step is
unreachable. -/
theorem claim_C10 (m : VersionedMessage) (s : Signers)
    (pks : List Pubkey) (sigs : List Signature)
    (hp : s.try_pubkeys = .ok pks)
    (hs : s.try_sign_message m.serialize = .ok sigs)
    (hsl : sigs.length = pks.length) :
    VersionedTransaction.try_new m s ≠
      .error (.InvalidInput "invalid keypairs") := by
  intro habs
  by_cases hg : m.static_account_keys.length <
      m.header.num_required_signatures
  · rw [try_new_guard m s hg] at habs
    simp only [Except.error.injEq, SignerError.InvalidInput.injEq] at habs
    exact absurd habs (by decide)
  · rcases Nat.lt_trichotomy pks.length (m.static_account_keys.take
        m.header.num_required_signatures).length with hlt | heq | hgt
    · rw [try_new_not_enough m s pks hg hp hlt] at habs
      simp at habs
    · by_cases hall : ∀ k ∈ m.static_account_keys.take
          m.header.num_required_signatures, k ∈ pks
      · obtain ⟨tx, htx, _, _⟩ :=
          try_new_ok_shape m s pks sigs hg hp heq hall hs hsl
        rw [htx] at habs
        cases habs
      · push_neg at hall
        rw [try_new_mismatch m s pks hg hp heq hall] at habs
        simp at habs
    · rw [try_new_too_many m s pks hg hp hgt] at habs
      simp at habs

/-- Witness for C10 at a concrete message and keypair-list signer set. -/
theorem claim_C10_witness :
    VersionedTransaction.try_new msg2 (keypairSigners [2, 1]) ≠
      .error (.InvalidInput "invalid keypairs") :=
  claim_C10 msg2 (keypairSigners [2, 1]) [2, 1]
    [(2, [9, 9]), (1, [9, 9])] rfl rfl rfl

/-- C2: `verify_and_hash_message` fails with the signature-failure error
iff some per-index check (signature `i` against static key `i` over the
serialized message bytes) is false, and otherwise returns the hash of the
raw serialized message bytes — a function of the message only. -/
theorem claim_C2 (verify : VerifyFn) (hash_raw_message : HashFn)
    (tx : VersionedTransaction) :
    (VersionedTransaction.verify_and_hash_message verify hash_raw_message
        tx = .error TransactionError.SignatureFailure ↔
      ∃ i, ∃ h1 : i < tx.signatures.length,
        ∃ h2 : i < tx.message.static_account_keys.length,
        verify (tx.signatures.get ⟨i, h1⟩)
          (tx.message.static_account_keys.get ⟨i, h2⟩)
          tx.message.serialize = false) ∧
    ((∀ i (h1 : i < tx.signatures.length)
        (h2 : i < tx.message.static_account_keys.length),
        verify (tx.signatures.get ⟨i, h1⟩)
          (tx.message.static_account_keys.get ⟨i, h2⟩)
          tx.message.serialize = true) →
      VersionedTransaction.verify_and_hash_message verify hash_raw_message
        tx = .ok (hash_raw_message tx.message.serialize)) := by
  have hiff := vwr_all_iff verify tx tx.message.serialize
  have hok : ((tx._verify_with_results verify tx.message.serialize).all
        (fun r => r) = true) →
      VersionedTransaction.verify_and_hash_message verify hash_raw_message
        tx = .ok (hash_raw_message tx.message.serialize) := by
    intro hb
    simp only [VersionedTransaction.verify_and_hash_message, hb,
      Bool.not_true]
    rfl
  have herr : ((tx._verify_with_results verify tx.message.serialize).all
        (fun r => r) = false) →
      VersionedTransaction.verify_and_hash_message verify hash_raw_message
        tx = .error TransactionError.SignatureFailure := by
    intro hb
    simp only [VersionedTransaction.verify_and_hash_message, hb,
      Bool.not_false]
    rfl
  by_cases hb : (tx._verify_with_results verify tx.message.serialize).all
      (fun r => r) = true
  · refine ⟨?_, fun _ => hok hb⟩
    rw [hok hb]
    constructor
    · intro habs
      cases habs
    · rintro ⟨i, h1, h2, hfalse⟩
      have htrue := hiff.mp hb i h1 h2
      rw [htrue] at hfalse
      cases hfalse
  · have hbf : (tx._verify_with_results verify tx.message.serialize).all
        (fun r => r) = false := Bool.eq_false_iff.mpr hb
    refine ⟨?_, ?_⟩
    · rw [herr hbf]
      refine ⟨fun _ => ?_, fun _ => rfl⟩
      have hne : ¬ ∀ i (h1 : i < tx.signatures.length)
          (h2 : i < tx.message.static_account_keys.length),
          verify (tx.signatures.get ⟨i, h1⟩)
            (tx.message.static_account_keys.get ⟨i, h2⟩)
            tx.message.serialize = true := fun hp => hb (hiff.mpr hp)
      push_neg at hne
      obtain ⟨i, h1, h2, hni⟩ := hne
      exact ⟨i, h1, h2, Bool.eq_false_iff.mpr hni⟩
    · intro hp
      exact absurd (hiff.mpr hp) hb

/-- Witness for C2: a correctly signed transaction hashes its message. -/
theorem claim_C2_witness :
    VersionedTransaction.verify_and_hash_message fakeVerify lenHash txC2 =
      .ok (lenHash txC2.message.serialize) :=
  (claim_C2 fakeVerify lenHash txC2).2 (by
    intro i h1 h2
    have hi : i = 0 := by
      have h1n : i < 1 := h1
      omega
    subst hi
    show fakeVerify (1, [9, 9]) 1 [9, 9] = true
    decide)

/-- C3: `sanitize` first delegates to the message's own sanitize check and
propagates its failure; then fails with `IndexOutOfBounds` when there are
fewer signatures than required, with `InvalidValue` when there are more,
then with `IndexOutOfBounds` when signatures outnumber static account
keys; it succeeds exactly when all three checks pass. -/
theorem claim_C3 (tx : VersionedTransaction) (flag : Bool) :
    (∀ e, tx.message.sanitize flag = .error e →
      tx.sanitize flag = .error e) ∧
    (tx.message.sanitize flag = .ok () →
      (tx.signatures.length < tx.message.header.num_required_signatures →
        tx.sanitize flag = .error .IndexOutOfBounds) ∧
      (tx.message.header.num_required_signatures < tx.signatures.length →
        tx.sanitize flag = .error .InvalidValue) ∧
      (tx.signatures.length = tx.message.header.num_required_signatures →
        tx.message.static_account_keys.length < tx.signatures.length →
        tx.sanitize flag = .error .IndexOutOfBounds) ∧
      (tx.sanitize flag = .ok () ↔
        (tx.signatures.length =
            tx.message.header.num_required_signatures ∧
         tx.signatures.length ≤
            tx.message.static_account_keys.length))) := by
  have hchar := sanitize_signatures_char tx
  constructor
  · intro e he
    simp only [VersionedTransaction.sanitize, he]
  · intro hok
    have hsan : tx.sanitize flag = tx.sanitize_signatures := by
      simp only [VersionedTransaction.sanitize, hok]
    refine ⟨?_, ?_, ?_, ?_⟩
    · intro h
      rw [hsan]
      exact hchar.1 h
    · intro h
      rw [hsan]
      exact hchar.2.1 h
    · intro heq hgt
      rw [hsan]
      exact hchar.2.2.1 heq hgt
    · rw [hsan]
      exact hchar.2.2.2

/-- Witness for C3: a failing delegated check propagates, and a
well-formed transaction sanitizes. -/
theorem claim_C3_witness :
    txBad.sanitize false = .error .ValueOutOfBounds ∧
    txC2.sanitize true = .ok () :=
  ⟨(claim_C3 txBad false).1 .ValueOutOfBounds rfl,
   ((claim_C3 txC2 true).2 rfl).2.2.2.mpr (by decide)⟩

/-- Counterexample to C5 as stated: a transaction with one signature and
no static account keys yields a result vector of length 0, not
`len(signatures) = 1` — the zip truncates to the shorter list. -/
theorem claim_C5_counterexample :
    ¬ ((VersionedTransaction.verify_with_results fakeVerify txC5).length =
        txC5.signatures.length) := by
  decide

/-- C5 (amended): `verify_with_results` never fails and returns an
ordered boolean vector of length `min(len(signatures),
len(static_account_keys))` whose entry at index `i` is the result of
checking `signatures[i]` against `static_account_keys[i]` over the
serialized message bytes. -/
theorem claim_C5 (verify : VerifyFn) (tx : VersionedTransaction) :
    (VersionedTransaction.verify_with_results verify tx).length =
      min tx.signatures.length tx.message.static_account_keys.length ∧
    ∀ i (hr : i < (VersionedTransaction.verify_with_results
          verify tx).length)
      (h1 : i < tx.signatures.length)
      (h2 : i < tx.message.static_account_keys.length),
      (VersionedTransaction.verify_with_results verify tx).get ⟨i, hr⟩ =
        verify (tx.signatures.get ⟨i, h1⟩)
          (tx.message.static_account_keys.get ⟨i, h2⟩)
          tx.message.serialize := by
  constructor
  · simp only [VersionedTransaction.verify_with_results,
      VersionedTransaction._verify_with_results, List.length_map,
      List.length_zip]
  · intro i hr h1 h2
    simp only [VersionedTransaction.verify_with_results,
      VersionedTransaction._verify_with_results, List.get_eq_getElem,
      List.getElem_map, List.getElem_zip]

/-- Index bound used by the C5 witness. -/
theorem txC2_vwr_len_pos :
    0 < (VersionedTransaction.verify_with_results fakeVerify txC2).length := by
  decide

/-- Index bound used by the C5 witness. -/
theorem txC2_sig_len_pos : 0 < txC2.signatures.length := by
  decide

/-- Index bound used by the C5 witness. -/
theorem txC2_keys_len_pos :
    0 < txC2.message.static_account_keys.length := by
  decide

/-- Witness for C5 (amended) at a concrete transaction and index 0. -/
theorem claim_C5_witness :
    (VersionedTransaction.verify_with_results fakeVerify txC2).length =
      min txC2.signatures.length
        txC2.message.static_account_keys.length ∧
    (VersionedTransaction.verify_with_results fakeVerify txC2).get
        ⟨0, txC2_vwr_len_pos⟩ =
      fakeVerify (txC2.signatures.get ⟨0, txC2_sig_len_pos⟩)
        (txC2.message.static_account_keys.get ⟨0, txC2_keys_len_pos⟩)
        txC2.message.serialize :=
  ⟨(claim_C5 fakeVerify txC2).1,
   (claim_C5 fakeVerify txC2).2 0 txC2_vwr_len_pos txC2_sig_len_pos
     txC2_keys_len_pos⟩

/-- C4: once the header guard passes and the pubkeys are obtained,
`try_new` fails with `TooManySigners` when more pubkeys are supplied
than required, `NotEnoughSigners` when fewer, and
`KeypairPubkeyMismatch` when the counts match but some required key has
no value-equal supplied match; on success each output signature comes
from the leftmost supplied index matching its required key (stable
resolution of duplicates). -/
theorem claim_C4 (m : VersionedMessage) (s : Signers) (pks : List Pubkey)
    (hg : ¬ m.static_account_keys.length < m.header.num_required_signatures)
    (hp : s.try_pubkeys = .ok pks) :
    (m.header.num_required_signatures < pks.length →
      VersionedTransaction.try_new m s = .error .TooManySigners) ∧
    (pks.length < m.header.num_required_signatures →
      VersionedTransaction.try_new m s = .error .NotEnoughSigners) ∧
    (pks.length = m.header.num_required_signatures →
      (∃ k ∈ m.static_account_keys.take m.header.num_required_signatures,
        ¬ k ∈ pks) →
      VersionedTransaction.try_new m s = .error .KeypairPubkeyMismatch) ∧
    (∀ sigs : List Signature,
      pks.length = m.header.num_required_signatures →
      (∀ k ∈ m.static_account_keys.take m.header.num_required_signatures,
        k ∈ pks) →
      s.try_sign_message m.serialize = .ok sigs →
      sigs.length = pks.length →
      ∃ tx, VersionedTransaction.try_new m s = .ok tx ∧
        List.Forall₂ (fun k sg => ∃ j, ∃ hj : j < pks.length,
            pks.get ⟨j, hj⟩ = k ∧
            (∀ j2 (hj2 : j2 < pks.length), j2 < j →
              pks.get ⟨j2, hj2⟩ ≠ k) ∧
            sigs.get? j = some sg)
          (m.static_account_keys.take m.header.num_required_signatures)
          tx.signatures) := by
  have htake : (m.static_account_keys.take
      m.header.num_required_signatures).length =
      m.header.num_required_signatures := by
    rw [List.length_take]
    exact Nat.min_eq_left (Nat.le_of_not_lt hg)
  refine ⟨?_, ?_, ?_, ?_⟩
  · intro h
    exact try_new_too_many m s pks hg hp (by rw [htake]; exact h)
  · intro h
    exact try_new_not_enough m s pks hg hp (by rw [htake]; exact h)
  · intro heq hmiss
    exact try_new_mismatch m s pks hg hp (by rw [htake]; exact heq) hmiss
  · intro sigs heq hall hs hsl
    obtain ⟨tx, htx, _, hf⟩ := try_new_ok_shape m s pks sigs hg hp
      (by rw [htake]; exact heq) hall hs hsl
    refine ⟨tx, htx, ?_⟩
    refine hf.imp ?_
    rintro k sg ⟨j, hpos, hget⟩
    obtain ⟨hj, hpj, hmin⟩ := position_spec hpos
    refine ⟨j, hj, beq_iff_eq.mp hpj, ?_, hget⟩
    intro j2 hj2 hlt2
    exact beq_eq_false_iff_ne.mp (hmin j2 hj2 hlt2)

/-- Witness for C4: the three error paths at concrete inputs, and a
successful duplicate-key signing resolving to the leftmost index. -/
theorem claim_C4_witness :
    (VersionedTransaction.try_new msg2 (keypairSigners [1, 2, 3]) =
      .error .TooManySigners) ∧
    (VersionedTransaction.try_new msg2 (keypairSigners [1]) =
      .error .NotEnoughSigners) ∧
    (VersionedTransaction.try_new msg2 (keypairSigners [1, 1]) =
      .error .KeypairPubkeyMismatch) ∧
    (∃ tx, VersionedTransaction.try_new msgDup (keypairSigners [5, 5]) =
        .ok tx ∧
      List.Forall₂ (fun k sg => ∃ j, ∃ hj : j < ([5, 5] :
            List Pubkey).length,
          ([5, 5] : List Pubkey).get ⟨j, hj⟩ = k ∧
          (∀ j2 (hj2 : j2 < ([5, 5] : List Pubkey).length), j2 < j →
            ([5, 5] : List Pubkey).get ⟨j2, hj2⟩ ≠ k) ∧
          ([(5, [4]), (5, [4])] : List Signature).get? j = some sg)
        (msgDup.static_account_keys.take
          msgDup.header.num_required_signatures)
        tx.signatures) :=
  ⟨(claim_C4 msg2 (keypairSigners [1, 2, 3]) [1, 2, 3] (by decide) rfl).1
      (by decide),
   (claim_C4 msg2 (keypairSigners [1]) [1] (by decide) rfl).2.1 (by decide),
   (claim_C4 msg2 (keypairSigners [1, 1]) [1, 1] (by decide) rfl).2.2.1 rfl
      ⟨2, by decide, by decide⟩,
   (claim_C4 msgDup (keypairSigners [5, 5]) [5, 5] (by decide) rfl).2.2.2
      [(5, [4]), (5, [4])] rfl (by decide) rfl rfl⟩

/-- C1: for a message whose required-signer prefix is `[A, B]`, signing
with the keypair set `{B, A}` succeeds, with the signature at index 0
verifying against `A` and the one at index 1 against `B`; more
generally, `try_new` over the keypair-list signer model is invariant
under permutation of the supplied keypairs, so permuted signer sets
yield the same transaction. -/
theorem claim_C1 :
    (∀ (m : VersionedMessage) (A B : Pubkey) (rest : List Pubkey),
      m.static_account_keys = A :: B :: rest →
      m.header.num_required_signatures = 2 →
      ∃ tx, VersionedTransaction.try_new m (keypairSigners [B, A]) =
          .ok tx ∧
        tx.signatures.length = 2 ∧
        (∀ h0 : 0 < tx.signatures.length,
          fakeVerify (tx.signatures.get ⟨0, h0⟩) A m.serialize = true) ∧
        (∀ h1 : 1 < tx.signatures.length,
          fakeVerify (tx.signatures.get ⟨1, h1⟩) B m.serialize = true)) ∧
    (∀ (m : VersionedMessage) (ks1 ks2 : List Pubkey), ks1.Perm ks2 →
      VersionedTransaction.try_new m (keypairSigners ks1) =
        VersionedTransaction.try_new m (keypairSigners ks2)) := by
  constructor
  · intro m A B rest hkeys hreq
    have hg : ¬ m.static_account_keys.length <
        m.header.num_required_signatures := by
      rw [hkeys, hreq]
      simp only [List.length_cons]
      omega
    have htake : m.static_account_keys.take
        m.header.num_required_signatures = [A, B] := by
      rw [hkeys, hreq]
      rfl
    have h := try_new_keypair_ok m [B, A] hg (by rw [htake]; rfl)
      (by
        rw [htake]
        intro k hk
        simp only [List.mem_cons, List.not_mem_nil, or_false] at hk ⊢
        tauto)
    rw [htake] at h
    refine ⟨⟨[fakeSign A m.serialize, fakeSign B m.serialize], m⟩, h,
      rfl, ?_, ?_⟩
    · intro h0
      have hget : ([fakeSign A m.serialize, fakeSign B m.serialize] :
          List Signature).get ⟨0, h0⟩ = fakeSign A m.serialize := rfl
      rw [hget]
      simp [fakeVerify]
    · intro h1
      have hget : ([fakeSign A m.serialize, fakeSign B m.serialize] :
          List Signature).get ⟨1, h1⟩ = fakeSign B m.serialize := rfl
      rw [hget]
      simp [fakeVerify]
  · exact fun m ks1 ks2 hp => try_new_keypair_perm m ks1 ks2 hp

/-- Witness for C1: signing `msg2` (prefix `[1, 2]`) with keypairs
`[2, 1]`, and permutation invariance at `[1, 2] ~ [2, 1]`. -/
theorem claim_C1_witness :
    (∃ tx, VersionedTransaction.try_new msg2 (keypairSigners [2, 1]) =
        .ok tx ∧
      tx.signatures.length = 2 ∧
      (∀ h0 : 0 < tx.signatures.length,
        fakeVerify (tx.signatures.get ⟨0, h0⟩) 1 msg2.serialize = true) ∧
      (∀ h1 : 1 < tx.signatures.length,
        fakeVerify (tx.signatures.get ⟨1, h1⟩) 2 msg2.serialize = true)) ∧
    VersionedTransaction.try_new msg2 (keypairSigners [1, 2]) =
      VersionedTransaction.try_new msg2 (keypairSigners [2, 1]) :=
  ⟨claim_C1.1 msg2 1 2 [3] rfl rfl,
   claim_C1.2 msg2 [1, 2] [2, 1] (by decide)⟩

end Solana
